import Mathlib

/-
Verification of the Jorudan transit-fetching Lambda (src/index.mjs and its
JSON-API variant).  JavaScript strings are embedded as `List Char`; the
regex-based text operations of the source are embedded as executable
recursive functions that implement the exact matching/backtracking
behaviour of the regexes used; the three-step network conversation of
`fetchTransitPage` is embedded as a function over an abstract network
environment that also records the list of URLs requested.
-/

/- Definitions: the shallow embedding of the source. -/

/-- The set matched by JavaScript `\s` (ECMAScript WhiteSpace and
LineTerminator), which is also the set trimmed by `String.prototype.trim`. -/
def isJsWs (c : Char) : Bool :=
  c == ' ' || c == '\t' || c == '\n' || c == '\r' || c == '\x0b' || c == '\x0c' ||
  c == ' ' || c == ' ' || c == ' ' || c == ' ' || c == ' ' ||
  c == ' ' || c == ' ' || c == ' ' || c == ' ' || c == ' ' ||
  c == ' ' || c == ' ' || c == ' ' || c == ' ' || c == ' ' ||
  c == ' ' || c == ' ' || c == '　' || c == '﻿'

/-- ECMAScript LineTerminator characters (line boundaries for the `m` flag
and for `.`). -/
def isLineTerm (c : Char) : Bool :=
  c == '\n' || c == '\r' || c == ' ' || c == ' '

/-- JavaScript `String.prototype.trim`: whitespace stripped from both ends. -/
def jsTrim (l : List Char) : List Char :=
  ((l.dropWhile isJsWs).reverse.dropWhile isJsWs).reverse

/-- `startsWithL p l` is true iff `p` is a prefix of `l`. -/
def startsWithL : List Char → List Char → Bool
  | [], _ => true
  | _ :: _, [] => false
  | p :: ps, c :: cs => p == c && startsWithL ps cs

/-- Index of the first occurrence of `needle` in `hay`, scanning left to
right, as a JavaScript regex engine does for a literal pattern. -/
def findSub (hay needle : List Char) : Option Nat :=
  match hay with
  | [] => if startsWithL needle [] then some 0 else none
  | c :: t =>
    if startsWithL needle (c :: t) then some 0
    else (findSub t needle).map (fun i => i + 1)

/-- JavaScript `String.prototype.includes` for our list embedding. -/
def listContains (hay needle : List Char) : Bool :=
  (findSub hay needle).isSome

/-- The characters escaped by the source's `escapeRegExp`
(the class `[.*+?^$\x7b\x7d()|[\]\\]`), exactly the pattern-control
characters of JavaScript regexes. -/
def isRegexSpecial (c : Char) : Bool :=
  c == '.' || c == '*' || c == '+' || c == '?' || c == '^' || c == '$' ||
  c == '\x7b' || c == '\x7d' || c == '(' || c == ')' || c == '|' ||
  c == '[' || c == ']' || c == '\\'

/-- `escapeRegExp` from the source: insert a backslash before every
pattern-control character (`string.replace(/[.*+?^$\x7b\x7d()|[\]\\]/g, with
a backslash-dollar-ampersand replacement)`). -/
def escapeRegExp : List Char → List Char
  | [] => []
  | c :: rest =>
    if isRegexSpecial c then '\\' :: c :: escapeRegExp rest
    else c :: escapeRegExp rest

/-- Interpretation of a regex pattern string as a literal character
sequence: a backslash escapes the following character; an unescaped
pattern-control character means the pattern is not a pure literal and no
interpretation is returned. -/
def parseLiteralPattern : List Char → Option (List Char)
  | [] => some []
  | c :: rest =>
    if c == '\\' then
      match rest with
      | [] => none
      | d :: rest2 => (parseLiteralPattern rest2).map (fun t => d :: t)
    else if isRegexSpecial c then none
    else (parseLiteralPattern rest).map (fun t => c :: t)

/-- Capture of the regex `lit([^\r\n]*)` against `s`: at the first
occurrence of the literal `lit`, capture the maximal following run of
characters that are neither carriage return nor line feed. -/
def captureFirst (s lit : List Char) : List Char :=
  match findSub s lit with
  | some i => (s.drop (i + lit.length)).takeWhile (fun c => !(c == '\r' || c == '\n'))
  | none => []

/-- The full-width colon appended to each label by `extractField`. -/
def fullColon : Char := '：'

/-- `extractField` from the source: build the pattern
`escapeRegExp(label) + colon + ([^\r\n]*)` and take the first match's
capture, or the empty string when there is no match.  The escaped label
part of the pattern is interpreted through `parseLiteralPattern` (the
`none` branch is unreachable because escaping always yields a pure
literal; see `parseLiteralPattern_escapeRegExp`). -/
def extractField (summary label : List Char) : List Char :=
  match parseLiteralPattern (escapeRegExp label ++ [fullColon]) with
  | some lit => captureFirst summary lit
  | none => []

/-- Generic left-to-right scanner for `String.prototype.split(regex)`:
`m l = some k` means the separator regex matches at the start of `l`,
consuming `k + 1` characters.  `fuel` bounds the recursion; it is
initialised to the length of the string, which every step decreases by at
least one, so the fuel never runs out for the initial call. -/
def splitScanGo (m : List Char → Option Nat) : Nat → List Char → List Char → List (List Char)
  | 0, cur, _ => [cur.reverse]
  | _ + 1, cur, [] => [cur.reverse]
  | fuel + 1, cur, c :: rest =>
    match m (c :: rest) with
    | some k => cur.reverse :: splitScanGo m fuel [] (rest.drop k)
    | none => splitScanGo m fuel (c :: cur) rest

/-- `String.prototype.split` with a (non-lookahead) separator regex. -/
def splitScan (m : List Char → Option Nat) (l : List Char) : List (List Char) :=
  splitScanGo m l.length [] l

/-- One `\r?\n` (greedy on the `\r`): returns the consumed length and the
remaining characters. -/
def halfNl : List Char → Option (Nat × List Char)
  | '\r' :: '\n' :: r => some (2, r)
  | '\n' :: r => some (1, r)
  | _ => none

/-- Separator match for `split(/\r?\n\r?\n/)` (one less than the matched
length, per the `splitScanGo` convention). -/
def blankSepMatch (l : List Char) : Option Nat :=
  match halfNl l with
  | some (n1, r1) =>
    match halfNl r1 with
    | some (n2, _) => some (n1 + n2 - 1)
    | none => none
  | none => none

/-- `block.trim().split(/\r?\n\r?\n/)` from `getSummary`/`getRoute`. -/
def blankSections (block : List Char) : List (List Char) :=
  splitScan blankSepMatch (jsTrim block)

/-- The first blank-line-delimited section of the trimmed block
(`[0] || empty`). -/
def firstSection (block : List Char) : List Char :=
  (blankSections block).getD 0 []

/-- The labels of the three summary fields. -/
def timeLabel : List Char := "発着時間".data

/-- Label of the duration field. -/
def durationLabel : List Char := "所要時間".data

/-- Label of the transfer-count field. -/
def transferLabel : List Char := "乗換回数".data

/-- `getSummary` from the source: take the first blank-line section of the
trimmed block and format the three labelled fields as
`time(duration)(transfers)`. -/
def getSummary (block : List Char) : List Char :=
  extractField (firstSection block) timeLabel ++ ['('] ++
  extractField (firstSection block) durationLabel ++ [')', '('] ++
  extractField (firstSection block) transferLabel ++ [')']

/-- The malformed-candidate sentinel: `getSummary` output when all three
fields are empty. -/
def emptySummarySentinel : List Char := "()()".data

/-- The separator artifact collapsed by the first cleanup pass: full-width
pipe, half-width space, full-width (ideographic) space. -/
def sepArtifact : List Char := ['｜', ' ', '　']

/-- First cleanup pass of `getRoute`:
`replace(/｜ 　/g, '｜')` — global replacement of the three-character
artifact by the full-width pipe, scanning left to right and resuming after
each replacement. -/
def collapseSepArtifact : List Char → List Char
  | '｜' :: ' ' :: '　' :: rest => '｜' :: collapseSepArtifact rest
  | c :: rest => c :: collapseSepArtifact rest
  | [] => []

/-- Index of the first character satisfying `p`, or the length of the list
when there is none. -/
def firstIdxOrLen (p : Char → Bool) : List Char → Nat
  | [] => 0
  | c :: rest => if p c then 0 else firstIdxOrLen p rest + 1

/-- Index (plus one) of the last character satisfying `p`. -/
def lastIdxWhere (p : Char → Bool) : List Char → Option Nat
  | [] => none
  | c :: rest =>
    match lastIdxWhere p rest with
    | some i => some (i + 1)
    | none => if p c then some 0 else none

/-- Second cleanup pass of `getRoute`: `replace(/\s+$/gm, '')`.
A match at the current position is a maximal whitespace run whose greedy
backtracking stops at the last line terminator inside the run (or at the
end of the input when the run reaches it); the matched part is deleted and
scanning resumes at the match end.  `fuel` starts at the string length and
every step consumes at least one character. -/
def stripTrailingWsGo : Nat → List Char → List Char
  | 0, _ => []
  | _ + 1, [] => []
  | fuel + 1, c :: rest =>
    if isJsWs c then
      let run := (c :: rest).takeWhile isJsWs
      if ((c :: rest).drop run.length).isEmpty then []
      else
        match lastIdxWhere isLineTerm run.tail with
        | some j => stripTrailingWsGo fuel ((c :: rest).drop (j + 1))
        | none => c :: stripTrailingWsGo fuel rest
    else c :: stripTrailingWsGo fuel rest

/-- Entry point of the second cleanup pass. -/
def stripTrailingWs (l : List Char) : List Char :=
  stripTrailingWsGo l.length l

/-- True when the list starts with two consecutive whitespace characters,
i.e. when `\s{2,}` matches at the current position. -/
def twoWsHead : List Char → Bool
  | c :: d :: _ => isJsWs c && isJsWs d
  | _ => false

/-- Third cleanup pass of `getRoute`: `replace(/\s{2,}(.*)$/gm, '')`.
A match at the current position is the maximal whitespace run (length at
least two) together with the rest of the line up to the next line
terminator; the matched part is deleted and scanning resumes at the match
end. -/
def stripDoubleWsLinesGo : Nat → List Char → List Char
  | 0, _ => []
  | _ + 1, [] => []
  | fuel + 1, c :: rest =>
    if twoWsHead (c :: rest) then
      let e := ((c :: rest).takeWhile isJsWs).length
      let t := e + firstIdxOrLen isLineTerm ((c :: rest).drop e)
      stripDoubleWsLinesGo fuel ((c :: rest).drop t)
    else c :: stripDoubleWsLinesGo fuel rest

/-- Entry point of the third cleanup pass. -/
def stripDoubleWsLines (l : List Char) : List Char :=
  stripDoubleWsLinesGo l.length l

/-- `getRoute` from the source: the second blank-line section of the
trimmed block (`[1] || empty`), with the three cleanup passes applied in
order. -/
def getRoute (block : List Char) : List Char :=
  stripDoubleWsLines (stripTrailingWs (collapseSepArtifact
    ((blankSections block).getD 1 [])))

/-- The full label token (label plus full-width colon) on which the target
segment is split into candidate blocks. -/
def timeToken : List Char := "発着時間：".data

/-- Scanner for `split(/(?=発着時間：)/)`: a zero-width boundary is placed
before every occurrence of the token except at position zero (`cur = []`
only at the very start). -/
def splitLookaheadGo (tok : List Char) (cur : List Char) : List Char → List (List Char)
  | [] => [cur.reverse]
  | c :: rest =>
    if startsWithL tok (c :: rest) && !cur.isEmpty then
      cur.reverse :: splitLookaheadGo tok [c] rest
    else
      splitLookaheadGo tok (c :: cur) rest

/-- `String.prototype.split` with the zero-width lookahead separator. -/
def splitLookahead (tok l : List Char) : List (List Char) :=
  splitLookaheadGo tok [] l

/-- `splitRoutes` from the source:
`block.split(/(?=発着時間：)/).filter(r => r.trim() && r.includes('発着時間：'))`. -/
def splitRoutes (block : List Char) : List (List Char) :=
  (splitLookahead timeToken block).filter
    (fun r => !(jsTrim r).isEmpty && listContains r timeToken)

/-- True when the list contains two consecutive whitespace characters. -/
def hasAdjWs : List Char → Bool
  | c :: d :: rest => (isJsWs c && isJsWs d) || hasAdjWs (d :: rest)
  | _ => false

/-- `tokn` does not occur as a substring of `s`. -/
def NoOccurrence (tokn s : List Char) : Prop :=
  ∀ a b, s ≠ a ++ tokn ++ b

/-- Declarative description of the field value: either the token does not
occur in `s` and the value is empty, or `s` splits at the first occurrence
of the token and the value is the text following it up to the next line
break. -/
def FirstOccValue (s tokn v : List Char) : Prop :=
  (NoOccurrence tokn s ∧ v = []) ∨
  ∃ a b, s = a ++ tokn ++ b ∧
    (∀ a2 b2, s = a2 ++ tokn ++ b2 → a.length ≤ a2.length) ∧
    v = b.takeWhile (fun c => !(c == '\r' || c == '\n'))

/-- Concatenation of a list of blocks. -/
def catList : List (List Char) → List Char
  | [] => []
  | b :: rest => b ++ catList rest

/-- The suffixes of a block concatenation that start at block boundaries. -/
def blockSuffixes : List (List Char) → List (List Char)
  | [] => [[]]
  | b :: rest => (b ++ catList rest) :: blockSuffixes rest

/-- The fixed query URL of the source. -/
def JORUDAN_URL : List Char :=
  "https://www.jorudan.co.jp/norikae/cgi/nori.cgi?rf=top&eok1=R-&eok2=R-&pg=0&eki1=%E5%85%AD%E6%9C%AC%E6%9C%A8%E4%B8%80%E4%B8%81%E7%9B%AE&Cmap1=&eki2=%E3%81%A4%E3%81%A4%E3%81%98%E3%83%B6%E4%B8%98%EF%BC%88%E6%9D%B1%E4%BA%AC%EF%BC%89&Cway=0&Cfp=1&Czu=2&S=%E6%A4%9C%E7%B4%A2&Csg=1&type=t".data

/-- The trusted origin. -/
def JORUDAN_BASE_URL : List Char := "https://www.jorudan.co.jp".data

/-- Per-request timeout (milliseconds); the abort behaviour itself is not
modelled, only recorded as configuration. -/
def REQUEST_TIMEOUT_MS : Nat := 3000

/-- Minimum number of horizontal-rule-delimited page segments. -/
def MIN_EXPECTED_BLOCKS : Nat := 3

/-- Index of the segment holding the route information. -/
def TARGET_BLOCK_INDEX : Nat := 2

/-- Maximum number of transit candidates returned. -/
def MAX_CANDIDATES : Nat := 2

/-- The structural marker checked with `includes` (`<hr size="1"`). -/
def hrMarker : List Char := "<hr size=\"1\"".data

/-- The literal part of the splitting regex
`/<hr size="1" color="black"\s*\/?>/i`. -/
def hrSplitLit : List Char := "<hr size=\"1\" color=\"black\"".data

/-- ASCII case folding, the effect of the regex `i` flag on this pattern. -/
def asciiLower (c : Char) : Char :=
  if 'A' ≤ c ∧ c ≤ 'Z' then Char.ofNat (c.toNat + 32) else c

/-- Case-insensitive prefix test. -/
def startsWithFold : List Char → List Char → Bool
  | [], _ => true
  | _ :: _, [] => false
  | p :: ps, c :: cs => (asciiLower p == asciiLower c) && startsWithFold ps cs

/-- Separator match for the horizontal-rule splitting regex: the
case-insensitive literal, then a greedy whitespace run, then `>` or `/>`
(one less than the matched length, per the `splitScanGo` convention). -/
def matchHrTag (l : List Char) : Option Nat :=
  if startsWithFold hrSplitLit l then
    let rest := l.drop hrSplitLit.length
    let wn := (rest.takeWhile isJsWs).length
    match rest.drop wn with
    | '>' :: _ => some (hrSplitLit.length + wn)
    | '/' :: '>' :: _ => some (hrSplitLit.length + wn + 1)
    | _ => none
  else none

/-- `body.split(/<hr size="1" color="black"\s*\/?>/i)` from the handler. -/
def splitHrBlocks (body : List Char) : List (List Char) :=
  splitScan matchHrTag body

/-- JavaScript `\w`. -/
def isWordChar (c : Char) : Bool :=
  ('a' ≤ c && c ≤ 'z') || ('A' ≤ c && c ≤ 'Z') || ('0' ≤ c && c ≤ '9') || c == '_'

/-- The lookahead `(?=\s*\w+=)` of the cookie-splitting regex. -/
def cookieBoundary (l : List Char) : Bool :=
  let r2 := l.dropWhile isJsWs
  let w := r2.takeWhile isWordChar
  if w.isEmpty then false
  else
    match r2.drop w.length with
    | '=' :: _ => true
    | _ => false

/-- Separator match for `split(/,(?=\s*\w+=)/)`. -/
def cookieSepMatch (l : List Char) : Option Nat :=
  match l with
  | ',' :: rest => if cookieBoundary rest then some 0 else none
  | _ => none

/-- The `"; "` joiner for accumulated cookies. -/
def cookieJoinSep : List Char := "; ".data

/-- `extractCookies` from the source: split the set-cookie header on commas
followed by a cookie-name lookahead, keep each part up to its first
semicolon, trim, drop empties, and join. -/
def extractCookies (setCookie : Option (List Char)) : List Char :=
  match setCookie with
  | none => []
  | some sc =>
    List.intercalate cookieJoinSep
      (((splitScan cookieSepMatch sc).map
        (fun part => jsTrim (part.takeWhile (fun c => !(c == ';'))))).filter
        (fun s => !s.isEmpty))

/-- The literal prefix of the client-redirect pattern
`/window\.location\.href="([^"]+)"/`. -/
def wlhLit : List Char := "window.location.href=\"".data

/-- Attempt to match the client-redirect pattern at the current position:
the literal, then a non-empty run of non-quote characters, then a closing
quote. -/
def tryRedirectAt (l : List Char) : Option (List Char) :=
  if startsWithL wlhLit l then
    let after := l.drop wlhLit.length
    let run := after.takeWhile (fun c => !(c == '"'))
    if run.isEmpty then none
    else
      match after.drop run.length with
      | '"' :: _ => some run
      | _ => none
  else none

/-- `extractRedirectUrl` from the source: first match of the
client-redirect pattern anywhere in the body, or none. -/
def extractRedirectUrl : List Char → Option (List Char)
  | [] => none
  | c :: rest =>
    match tryRedirectAt (c :: rest) with
    | some v => some v
    | none => extractRedirectUrl rest

/-- The distinct failure kinds thrown along the pipeline (each corresponds
to one `throw new Error(...)` site, or to a `new URL` constructor throw). -/
inductive LambdaError where
  | invalidRedirectPath
  | unexpectedResponse
  | invalidRedirectOrigin
  | urlConstructor
  | noFinalUrl
  | httpStatus
  | noTransitData
  | insufficientBlocks
  | noRoutesFound
  | noValidRoutes
  deriving DecidableEq

/-- The protocol-relative prefix rejected by the anti-SSRF guard. -/
def dblSlashLit : List Char := "//".data

/-- The scheme separator rejected by the anti-SSRF guard. -/
def protoSepLit : List Char := "://".data

/-- Prefix identifying an absolute `Location` header. -/
def httpLit : List Char := "http".data

/-- A single slash. -/
def slashLit : List Char := "/".data

/-- The anti-SSRF condition of `safeJoinUrl`:
`path.startsWith('//') || path.includes('://')`. -/
def badRedirectPath (path : List Char) : Bool :=
  startsWithL dblSlashLit path || listContains path protoSepLit

/-- The join performed by `safeJoinUrl` when the guard passes. -/
def joinUrl (base path : List Char) : List Char :=
  base ++ (if startsWithL slashLit path then [] else slashLit) ++ path

/-- `safeJoinUrl` from the source: reject protocol-relative or
scheme-carrying paths, otherwise join onto the base. -/
def safeJoinUrl (base path : List Char) : Except LambdaError (List Char) :=
  if badRedirectPath path = true then Except.error LambdaError.invalidRedirectPath
  else Except.ok (joinUrl base path)

/-- One network response: body, set-cookie header, location header and
`ok` status. -/
structure NetResp where
  body : List Char
  setCookie : Option (List Char)
  location : Option (List Char)
  ok : Bool

/-- Abstract network and platform environment for one invocation.
`resp1` answers the initial fixed-URL request; `resp2` and `resp3` answer
the follow-up requests as functions of the requested URL and of the cookie
header sent; `originOfUrl` models `new URL(u).origin` (`none` when the URL
constructor throws); `urlQueryParam` models
`new URL(u).searchParams.get('url')`; `decodeComponent` models
`decodeURIComponent`. -/
structure NetEnv where
  resp1 : NetResp
  resp2 : List Char → List Char → NetResp
  resp3 : List Char → List Char → NetResp
  originOfUrl : List Char → Option (List Char)
  urlQueryParam : List Char → Option (List Char)
  decodeComponent : List Char → List Char

/-- Step 3 of `fetchTransitPage`: resolve the final URL from the redirect
response's `Location` header (validating absolute locations against the
trusted origin) or from the `url` query parameter of the redirect URL. -/
def resolveFinalUrl (env : NetEnv) (r2 : NetResp) (redirectUrl : List Char) :
    Except LambdaError (List Char) :=
  match r2.location with
  | some loc =>
    if startsWithL httpLit loc = true then
      match env.originOfUrl loc with
      | none => Except.error LambdaError.urlConstructor
      | some o =>
        if o = JORUDAN_BASE_URL then Except.ok loc
        else Except.error LambdaError.invalidRedirectOrigin
    else safeJoinUrl JORUDAN_BASE_URL loc
  | none =>
    match env.urlQueryParam redirectUrl with
    | some up => safeJoinUrl JORUDAN_BASE_URL (env.decodeComponent up)
    | none => Except.error LambdaError.noFinalUrl

/-- `fetchTransitPage` from the source, over the abstract environment.
Returns the outcome together with the list of URLs actually requested, in
order. -/
def fetchTransitPage (env : NetEnv) :
    Except LambdaError (List Char) × List (List Char) :=
  let body1 := env.resp1.body
  let cookies1 := extractCookies env.resp1.setCookie
  match extractRedirectUrl body1 with
  | none =>
    if listContains body1 hrMarker = true then (Except.ok body1, [JORUDAN_URL])
    else (Except.error LambdaError.unexpectedResponse, [JORUDAN_URL])
  | some redirectPath =>
    match safeJoinUrl JORUDAN_BASE_URL redirectPath with
    | Except.error e => (Except.error e, [JORUDAN_URL])
    | Except.ok redirectUrl =>
      let r2 := env.resp2 redirectUrl cookies1
      let newCookies := extractCookies r2.setCookie
      let cookies2 :=
        if newCookies.isEmpty then cookies1
        else if cookies1.isEmpty then newCookies
        else cookies1 ++ cookieJoinSep ++ newCookies
      match resolveFinalUrl env r2 redirectUrl with
      | Except.error e => (Except.error e, [JORUDAN_URL, redirectUrl])
      | Except.ok finalUrl =>
        let r3 := env.resp3 finalUrl cookies2
        if r3.ok = false then
          (Except.error LambdaError.httpStatus, [JORUDAN_URL, redirectUrl, finalUrl])
        else if listContains r3.body hrMarker = true then
          (Except.ok r3.body, [JORUDAN_URL, redirectUrl, finalUrl])
        else
          (Except.error LambdaError.noTransitData, [JORUDAN_URL, redirectUrl, finalUrl])

/-- `[getSummary(route), getRoute(route)]` for one candidate. -/
def mkPair (route : List Char) : List Char × List Char :=
  (getSummary route, getRoute route)

/-- The candidate filter: summary is not the sentinel and the route is
non-blank after trimming. -/
def validPair (p : List Char × List Char) : Bool :=
  !(p.1 == emptySummarySentinel) && !(jsTrim p.2).isEmpty

/-- `routes.slice(0, MAX_CANDIDATES).map(...).filter(...)` from the
handler. -/
def candPairs (routes : List (List Char)) : List (List Char × List Char) :=
  ((routes.take MAX_CANDIDATES).map mkPair).filter validPair

/-- The body of the handler's try block after the page body has been
fetched: split on the horizontal rule, check the segment count, split the
target segment into candidates, build and filter the transfer pairs. -/
def processBody (body : List Char) :
    Except LambdaError (List (List Char × List Char)) :=
  let blocks := splitHrBlocks body
  if blocks.length < MIN_EXPECTED_BLOCKS then
    Except.error LambdaError.insufficientBlocks
  else
    let routes := splitRoutes (blocks.getD TARGET_BLOCK_INDEX [])
    if routes = [] then Except.error LambdaError.noRoutesFound
    else
      let transfers := candPairs routes
      if transfers = [] then Except.error LambdaError.noValidRoutes
      else Except.ok transfers

/-- Structured response bodies: `JSON.stringify` of the generic error
object, of the health-check object, or of the transfers object. -/
inductive RespBody where
  | genericError
  | statusOk (timestamp : List Char)
  | transfersOk (transfers : List (List Char × List Char))
  deriving DecidableEq

/-- A Lambda response object. -/
structure LambdaResponse where
  statusCode : Nat
  headers : List (List Char × List Char)
  body : RespBody
  deriving DecidableEq

/-- The `Content-Type` header name. -/
def contentTypeKey : List Char := "Content-Type".data

/-- The JSON content type. -/
def appJsonValue : List Char := "application/json".data

/-- The fixed response headers of the JSON variant. -/
def JSON_HEADERS : List (List Char × List Char) :=
  [(contentTypeKey, appJsonValue),
   ("Access-Control-Allow-Origin".data, "*".data),
   ("Access-Control-Allow-Headers".data, "Content-Type,Authorization".data),
   ("Access-Control-Allow-Methods".data, "GET,OPTIONS".data)]

/-- `createJsonResponse` from the source. -/
def createJsonResponse (statusCode : Nat) (body : RespBody) : LambdaResponse :=
  ⟨statusCode, JSON_HEADERS, body⟩

/-- The uniform failure response: status 500 with the fixed generic error
body (`Failed to fetch transit information`), carrying no internal
detail. -/
def errorResponse : LambdaResponse :=
  createJsonResponse 500 RespBody.genericError

/-- A Lambda event: `path` and `rawPath` fields, each a string or absent. -/
structure Event where
  path : Option (List Char)
  rawPath : Option (List Char)

/-- The default path when the event carries none. -/
def transitDefaultPath : List Char := "/transit".data

/-- The health-check path. -/
def statusPath : List Char := "/status".data

/-- The optional routing prefix stripped by `normalizePath`. -/
def apiRoutePrefixLit : List Char := "/api".data

/-- JavaScript `a || b` for a string-or-absent value `a`. -/
def orElseStr (a : Option (List Char)) (b : List Char) : List Char :=
  match a with
  | some s => if s.isEmpty then b else s
  | none => b

/-- `event.path || event.rawPath || '/transit'`. -/
def effectiveRawPath (e : Event) : List Char :=
  orElseStr e.path (orElseStr e.rawPath transitDefaultPath)

/-- `normalizePath` from the source: strip one leading `/api`, defaulting
an empty result to `/`. -/
def normalizePath (p : List Char) : List Char :=
  let q := if startsWithL apiRoutePrefixLit p then p.drop apiRoutePrefixLit.length else p
  if q.isEmpty then slashLit else q

/-- The transit-data route: fetch, process, and map any failure to the
uniform error response; the list of requested URLs is passed through. -/
def transitBranch (env : NetEnv) : LambdaResponse × List (List Char) :=
  match fetchTransitPage env with
  | (Except.error _, reqs) => (errorResponse, reqs)
  | (Except.ok body, reqs) =>
    match processBody body with
    | Except.ok transfers =>
      (createJsonResponse 200 (RespBody.transfersOk transfers), reqs)
    | Except.error _ => (errorResponse, reqs)

/-- The Lambda handler: health-check route answered immediately with the
current timestamp and no network request, every other path dispatched to
the transit-data route. -/
def handler (env : NetEnv) (now : List Char) (e : Event) :
    LambdaResponse × List (List Char) :=
  if normalizePath (effectiveRawPath e) = statusPath then
    (createJsonResponse 200 (RespBody.statusOk now), [])
  else transitBranch env

/-- An empty successful response. -/
def dummyRespW : NetResp := ⟨[], none, none, true⟩

/-- A step-1 body carrying a protocol-relative client redirect. -/
def ssrfBodyW : List Char := "window.location.href=\"//evil.example/x\"".data

/-- The redirect path extracted from `ssrfBodyW`. -/
def ssrfPathW : List Char := "//evil.example/x".data

/-- Environment whose first response carries the protocol-relative
redirect. -/
def envSsrfW : NetEnv :=
  ⟨⟨ssrfBodyW, none, none, true⟩, fun _ _ => dummyRespW, fun _ _ => dummyRespW,
   fun _ => none, fun _ => none, fun s => s⟩

/-- A step-1 body carrying a benign relative redirect path. -/
def originBodyW : List Char := "window.location.href=\"/uuid?x=1\"".data

/-- The redirect path extracted from `originBodyW`. -/
def uuidPathW : List Char := "/uuid?x=1".data

/-- An absolute off-origin `Location` value. -/
def evilLocW : List Char := "http://evil.example/".data

/-- The origin of `evilLocW`. -/
def evilOriginW : List Char := "http://evil.example".data

/-- Environment whose redirect response points at an off-origin absolute
location. -/
def envOriginW : NetEnv :=
  ⟨⟨originBodyW, none, none, true⟩, fun _ _ => ⟨[], none, some evilLocW, true⟩,
   fun _ _ => dummyRespW, fun _ => some evilOriginW, fun _ => none, fun s => s⟩

/-- A timestamp value. -/
def nowW : List Char := "2026-10-12T00:00:00.000Z".data

/-- An event carrying no path fields. -/
def evDefaultW : Event := ⟨none, none⟩

/-- The prefixed health-check path. -/
def statusEventPathW : List Char := "/api/status".data

/-- An event addressed at the prefixed health-check route. -/
def evStatusW : Event := ⟨some statusEventPathW, none⟩

/-- An unrecognised path. -/
def fooPathW : List Char := "/foo".data

/-- An event with an unrecognised path. -/
def evFooW : Event := ⟨some fooPathW, none⟩

/-- A well-formed candidate block. -/
def wbA : List Char := timeToken ++ "1\n\nA".data

/-- A second well-formed candidate block. -/
def wbB : List Char := timeToken ++ "2\n\nB".data

/-- A third well-formed candidate block. -/
def wbC : List Char := timeToken ++ "3\n\nC".data

/-- One horizontal-rule tag. -/
def hrTagW : List Char := "<hr size=\"1\" color=\"black\">".data

/-- A page body with three horizontal-rule-delimited segments whose third
segment holds three well-formed candidate blocks. -/
def bodyW : List Char := hrTagW ++ hrTagW ++ wbA ++ wbB ++ wbC

/- Theorems. -/

theorem startsWithL_iff (p l : List Char) :
    startsWithL p l = true ↔ ∃ r, l = p ++ r := by
  induction p generalizing l with
  | nil => simp [startsWithL]
  | cons a ps ih =>
    cases l with
    | nil => simp [startsWithL]
    | cons c cs =>
      simp only [startsWithL, Bool.and_eq_true, beq_iff_eq, ih, List.cons_append,
        List.cons.injEq]
      constructor
      · rintro ⟨h1, r, h2⟩; exact ⟨r, h1.symm, h2⟩
      · rintro ⟨r, h1, h2⟩; exact ⟨h1.symm, r, h2⟩

theorem findSub_some (hay needle : List Char) (i : Nat)
    (h : findSub hay needle = some i) :
    ∃ a b, hay = a ++ needle ++ b ∧ a.length = i := by
  induction hay generalizing i with
  | nil =>
    unfold findSub at h
    by_cases hs : startsWithL needle [] = true
    · rw [if_pos hs] at h
      obtain ⟨r, hr⟩ := (startsWithL_iff _ _).1 hs
      cases h
      exact ⟨[], r, by simpa using hr, rfl⟩
    · rw [if_neg hs] at h; cases h
  | cons c t ih =>
    unfold findSub at h
    by_cases hs : startsWithL needle (c :: t) = true
    · rw [if_pos hs] at h
      obtain ⟨r, hr⟩ := (startsWithL_iff _ _).1 hs
      cases h
      exact ⟨[], r, by simpa using hr, rfl⟩
    · rw [if_neg hs] at h
      cases hj : findSub t needle with
      | none => rw [hj] at h; cases h
      | some j =>
        rw [hj] at h
        simp at h
        obtain ⟨a, b, hab, hlen⟩ := ih j hj
        refine ⟨c :: a, b, by simp [hab], ?_⟩
        simp [hlen, ← h]

theorem findSub_min (hay needle : List Char) (i : Nat)
    (h : findSub hay needle = some i) :
    ∀ a b, hay = a ++ needle ++ b → i ≤ a.length := by
  induction hay generalizing i with
  | nil =>
    intro a b hab
    unfold findSub at h
    by_cases hs : startsWithL needle [] = true
    · rw [if_pos hs] at h; cases h; exact Nat.zero_le _
    · rw [if_neg hs] at h; cases h
  | cons c t ih =>
    intro a b hab
    unfold findSub at h
    by_cases hs : startsWithL needle (c :: t) = true
    · rw [if_pos hs] at h; cases h; exact Nat.zero_le _
    · rw [if_neg hs] at h
      cases a with
      | nil =>
        exfalso
        apply hs
        exact (startsWithL_iff _ _).2 ⟨b, by simpa using hab⟩
      | cons c2 a2 =>
        simp only [List.cons_append, List.cons.injEq] at hab
        obtain ⟨hc, ht⟩ := hab
        cases hj : findSub t needle with
        | none => rw [hj] at h; cases h
        | some j =>
          rw [hj] at h
          simp at h
          have := ih j hj a2 b ht
          simp only [List.length_cons]
          omega

theorem findSub_none (hay needle : List Char)
    (h : findSub hay needle = none) :
    ∀ a b, hay ≠ a ++ needle ++ b := by
  induction hay with
  | nil =>
    intro a b hab
    unfold findSub at h
    by_cases hs : startsWithL needle [] = true
    · rw [if_pos hs] at h; cases h
    · apply hs
      cases a with
      | nil => exact (startsWithL_iff _ _).2 ⟨b, by simpa using hab⟩
      | cons x xs => simp at hab
  | cons c t ih =>
    intro a b hab
    unfold findSub at h
    by_cases hs : startsWithL needle (c :: t) = true
    · rw [if_pos hs] at h; cases h
    · rw [if_neg hs] at h
      cases a with
      | nil =>
        apply hs
        exact (startsWithL_iff _ _).2 ⟨b, by simpa using hab⟩
      | cons c2 a2 =>
        simp only [List.cons_append, List.cons.injEq] at hab
        cases hj : findSub t needle with
        | none => exact ih (by simpa using hj) a2 b hab.2
        | some j => rw [hj] at h; simp at h

theorem listContains_iff (hay needle : List Char) :
    listContains hay needle = true ↔ ∃ a b, hay = a ++ needle ++ b := by
  unfold listContains
  cases h : findSub hay needle with
  | none =>
    simp only [Option.isSome_none, Bool.false_eq_true, false_iff]
    rintro ⟨a, b, hab⟩
    exact findSub_none hay needle h a b hab
  | some i =>
    simp only [Option.isSome_some, true_iff]
    obtain ⟨a, b, hab, _⟩ := findSub_some hay needle i h
    exact ⟨a, b, hab⟩

theorem parseLiteralPattern_escapeRegExp (label : List Char) :
    parseLiteralPattern (escapeRegExp label ++ [fullColon]) =
      some (label ++ [fullColon]) := by
  induction label with
  | nil => rfl
  | cons c rest ih =>
    by_cases hc : isRegexSpecial c = true
    · have he : escapeRegExp (c :: rest) ++ [fullColon] =
          '\\' :: c :: (escapeRegExp rest ++ [fullColon]) := by
        simp [escapeRegExp, hc]
      rw [he]
      unfold parseLiteralPattern
      simp [ih]
    · have hcb : (c == '\\') = false := by
        cases hb : c == '\\' with
        | false => rfl
        | true =>
          exfalso
          have : c = '\\' := by simpa using hb
          subst this
          simp [isRegexSpecial] at hc
      have he : escapeRegExp (c :: rest) ++ [fullColon] =
          c :: (escapeRegExp rest ++ [fullColon]) := by
        simp [escapeRegExp, hc]
      rw [he]
      unfold parseLiteralPattern
      simp [hcb, hc, ih]

theorem extractField_eq_captureFirst (summary label : List Char) :
    extractField summary label = captureFirst summary (label ++ [fullColon]) := by
  unfold extractField
  rw [parseLiteralPattern_escapeRegExp]

theorem hasAdjWs_of_append (a b : List Char) (x y : Char)
    (hx : isJsWs x = true) (hy : isJsWs y = true) :
    hasAdjWs (a ++ x :: y :: b) = true := by
  induction a with
  | nil => simp [hasAdjWs, hx, hy]
  | cons c a2 ih =>
    cases a2 with
    | nil => simp [hasAdjWs, hx, hy]
    | cons c2 a3 =>
      simp only [List.cons_append] at ih ⊢
      simp [hasAdjWs, ih]

theorem stripDoubleWsLinesGo_noAdj (fuel : Nat) (l : List Char) :
    hasAdjWs (stripDoubleWsLinesGo fuel l) = false := by
  induction fuel generalizing l with
  | zero => rfl
  | succ fuel ih =>
    cases l with
    | nil => rfl
    | cons c rest =>
      by_cases htw : twoWsHead (c :: rest) = true
      · unfold stripDoubleWsLinesGo
        rw [if_pos htw]
        exact ih _
      · unfold stripDoubleWsLinesGo
        rw [if_neg htw]
        cases hx : stripDoubleWsLinesGo fuel rest with
        | nil => simp [hasAdjWs]
        | cons d x2 =>
          have hrest : hasAdjWs (d :: x2) = false := by rw [← hx]; exact ih rest
          simp only [hasAdjWs, hrest, Bool.or_false]
          by_cases hwc : isJsWs c = true
          · -- the head of the recursive output cannot be whitespace here
            cases rest with
            | nil =>
              exfalso
              cases fuel with
              | zero => simp [stripDoubleWsLinesGo] at hx
              | succ f => simp [stripDoubleWsLinesGo] at hx
            | cons r1 rest2 =>
              have hr1 : isJsWs r1 = false := by
                cases hb : isJsWs r1 with
                | false => rfl
                | true => exact absurd (by simp [twoWsHead, hwc, hb]) htw
              cases fuel with
              | zero => simp [stripDoubleWsLinesGo] at hx
              | succ f =>
                have htw2 : twoWsHead (r1 :: rest2) = false := by
                  cases rest2 with
                  | nil => rfl
                  | cons r2 rest3 => simp [twoWsHead, hr1]
                unfold stripDoubleWsLinesGo at hx
                rw [if_neg (by simp [htw2])] at hx
                have hd : d = r1 := (List.cons.injEq .. ▸ hx).1.symm
                rw [hd, hwc, hr1]
                rfl
          · simp [Bool.and_eq_true]
            intro hcc
            exact absurd hcc hwc

theorem captureFirst_firstOccValue (s tokn : List Char) :
    FirstOccValue s tokn (captureFirst s tokn) := by
  unfold captureFirst
  cases h : findSub s tokn with
  | none => exact Or.inl ⟨findSub_none s tokn h, rfl⟩
  | some i =>
    obtain ⟨a, b, hab, hlen⟩ := findSub_some s tokn i h
    refine Or.inr ⟨a, b, hab, ?_, ?_⟩
    · intro a2 b2 hab2
      have := findSub_min s tokn i h a2 b2 hab2
      omega
    · have hdrop : s.drop (i + tokn.length) = b := by
        rw [hab, ← hlen]
        have hassoc : a ++ tokn ++ b = (a ++ tokn) ++ b := rfl
        rw [hassoc, show a.length + tokn.length = (a ++ tokn).length by simp,
          List.drop_left]
      show List.takeWhile _ (s.drop (i + tokn.length)) = _
      rw [hdrop]

theorem blockSuffixes_length_le (bs : List (List Char)) (x : List Char)
    (hx : x ∈ blockSuffixes bs) : x.length ≤ (catList bs).length := by
  induction bs with
  | nil => simp [blockSuffixes] at hx; simp [hx, catList]
  | cons b rest ih =>
    simp only [blockSuffixes, List.mem_cons] at hx
    rcases hx with hx | hx
    · simp [hx, catList]
    · have := ih hx
      simp only [catList, List.length_append]
      omega

theorem startsWithL_append (p l z : List Char) (h : startsWithL p l = true) :
    startsWithL p (l ++ z) = true := by
  induction p generalizing l with
  | nil => rfl
  | cons a ps ih =>
    cases l with
    | nil => simp [startsWithL] at h
    | cons c cs =>
      simp only [startsWithL, Bool.and_eq_true] at h ⊢
      exact ⟨h.1, ih cs h.2⟩

theorem startsWithL_nil_right (tok : List Char) (h : tok ≠ []) :
    startsWithL tok [] = false := by
  cases tok with
  | nil => exact absurd rfl h
  | cons t ts => rfl

theorem splitLookaheadGo_cons_eq (tok cur : List Char) (c : Char) (rest : List Char) :
    splitLookaheadGo tok cur (c :: rest) =
      if startsWithL tok (c :: rest) && !cur.isEmpty then
        cur.reverse :: splitLookaheadGo tok [c] rest
      else splitLookaheadGo tok (c :: cur) rest := rfl

theorem splitLookaheadGo_piece (tok : List Char) :
    ∀ (l cur r : List Char), r ∈ splitLookaheadGo tok cur l →
      ∃ a b, cur.reverse ++ l = a ++ r ++ b := by
  intro l
  induction l with
  | nil =>
    intro cur r hr
    simp only [splitLookaheadGo, List.mem_singleton] at hr
    exact ⟨[], [], by simp [hr]⟩
  | cons c rest ih =>
    intro cur r hr
    rw [splitLookaheadGo_cons_eq] at hr
    by_cases hcond : (startsWithL tok (c :: rest) && !cur.isEmpty) = true
    · rw [if_pos hcond] at hr
      rcases List.mem_cons.1 hr with hr | hr
      · exact ⟨[], c :: rest, by simp [hr]⟩
      · obtain ⟨a, b, hab⟩ := ih [c] r hr
        have hab2 : c :: rest = a ++ r ++ b := by simpa using hab
        refine ⟨cur.reverse ++ a, b, ?_⟩
        rw [show cur.reverse ++ (c :: rest) = cur.reverse ++ (a ++ r ++ b) by rw [hab2]]
        simp [List.append_assoc]
    · rw [if_neg hcond] at hr
      obtain ⟨a, b, hab⟩ := ih (c :: cur) r hr
      refine ⟨a, b, ?_⟩
      have hre : (c :: cur).reverse ++ rest = cur.reverse ++ (c :: rest) := by
        simp [List.append_assoc]
      rw [← hre, hab]

theorem splitLookaheadGo_through (tok : List Char) :
    ∀ (u y cur : List Char),
      (∀ v w, u = v ++ w → w ≠ [] → startsWithL tok (w ++ y) = false) →
      splitLookaheadGo tok cur (u ++ y) = splitLookaheadGo tok (u.reverse ++ cur) y := by
  intro u
  induction u with
  | nil => intro y cur _; simp
  | cons c u2 ih =>
    intro y cur h
    have hc : startsWithL tok (c :: (u2 ++ y)) = false := by
      have := h [] (c :: u2) (by simp) (by simp)
      simpa using this
    show splitLookaheadGo tok cur (c :: (u2 ++ y)) = _
    rw [splitLookaheadGo_cons_eq, if_neg (by simp [hc])]
    rw [ih y (c :: cur) (fun v w hvw hw => h (c :: v) w (by simp [hvw]) hw)]
    simp [List.append_assoc]

theorem splitLookahead_concat (tok : List Char) (htok : tok ≠ []) :
    ∀ bs : List (List Char), bs ≠ [] →
      (∀ b ∈ bs, startsWithL tok b = true) →
      (∀ v w, catList bs = v ++ w → startsWithL tok w = true → w ∈ blockSuffixes bs) →
      splitLookaheadGo tok [] (catList bs) = bs := by
  intro bs
  induction bs with
  | nil => intro h; exact absurd rfl h
  | cons b bs ih =>
    intro _ hstart hocc
    have hb : startsWithL tok b = true := hstart b (List.mem_cons_self b bs)
    obtain ⟨c, btail, rfl⟩ : ∃ c btail, b = c :: btail := by
      cases b with
      | nil => rw [startsWithL_nil_right tok htok] at hb; cases hb
      | cons c btail => exact ⟨c, btail, rfl⟩
    have hcat : catList ((c :: btail) :: bs) = c :: (btail ++ catList bs) := by
      simp [catList]
    rw [hcat]
    rw [splitLookaheadGo_cons_eq, if_neg (by simp)]
    have hno : ∀ v w, btail = v ++ w → w ≠ [] →
        startsWithL tok (w ++ catList bs) = false := by
      intro v w hvw hw
      cases hsw : startsWithL tok (w ++ catList bs) with
      | false => rfl
      | true =>
        exfalso
        have hsplit : catList ((c :: btail) :: bs) = (c :: v) ++ (w ++ catList bs) := by
          simp [catList, hvw, List.append_assoc]
        have hmem := hocc (c :: v) (w ++ catList bs) hsplit hsw
        simp only [blockSuffixes, List.mem_cons] at hmem
        have hwlen : 1 ≤ w.length := by
          cases w with
          | nil => exact absurd rfl hw
          | cons _ _ => simp
        have hwle : w.length ≤ btail.length := by
          have := congrArg List.length hvw
          simp only [List.length_append] at this
          omega
        rcases hmem with hmem | hmem
        · have := congrArg List.length hmem
          simp only [List.length_append, List.length_cons] at this
          omega
        · have := blockSuffixes_length_le bs _ hmem
          simp only [List.length_append] at this
          omega
    rw [splitLookaheadGo_through tok btail (catList bs) [c] hno]
    cases bs with
    | nil =>
      show splitLookaheadGo tok (btail.reverse ++ [c]) (catList []) = _
      simp [catList, splitLookaheadGo]
    | cons b2 bs2 =>
      have hb2 : startsWithL tok b2 = true := hstart b2 (by simp)
      have hy : startsWithL tok (catList (b2 :: bs2)) = true := by
        show startsWithL tok (b2 ++ catList bs2) = true
        exact startsWithL_append tok b2 _ hb2
      obtain ⟨c2, b2tail, hb2eq⟩ : ∃ c2 b2tail, catList (b2 :: bs2) = c2 :: b2tail := by
        cases hcl : catList (b2 :: bs2) with
        | nil => rw [hcl] at hy; rw [startsWithL_nil_right tok htok] at hy; cases hy
        | cons c2 b2tail => exact ⟨c2, b2tail, rfl⟩
      rw [hb2eq]
      have hy2 : startsWithL tok (c2 :: b2tail) = true := hb2eq ▸ hy
      have hne : (btail.reverse ++ [c]).isEmpty = false := by
        cases hbr : btail.reverse with
        | nil => rfl
        | cons x xs => rfl
      rw [splitLookaheadGo_cons_eq, if_pos (by simp [hy2, hne])]
      have hone : splitLookaheadGo tok [c2] b2tail =
          splitLookaheadGo tok [] (catList (b2 :: bs2)) := by
        rw [hb2eq]
        rw [show splitLookaheadGo tok [] (c2 :: b2tail) =
          splitLookaheadGo tok (c2 :: []) b2tail by
            rw [splitLookaheadGo_cons_eq, if_neg (by simp)]]
      rw [hone]
      have hocc2 : ∀ v w, catList (b2 :: bs2) = v ++ w → startsWithL tok w = true →
          w ∈ blockSuffixes (b2 :: bs2) := by
        intro v w hvw hsw
        have hsplit : catList ((c :: btail) :: b2 :: bs2) = ((c :: btail) ++ v) ++ w := by
          show (c :: btail) ++ catList (b2 :: bs2) = _
          rw [hvw, List.append_assoc]
        have hmem := hocc _ w hsplit hsw
        simp only [blockSuffixes, List.mem_cons] at hmem
        rcases hmem with hmem | hmem
        · exfalso
          have hlw : w.length ≤ (catList (b2 :: bs2)).length := by
            have := congrArg List.length hvw
            simp only [List.length_append] at this
            omega
          have := congrArg List.length hmem
          simp only [List.length_append, List.length_cons, catList] at this hlw
          omega
        · simpa [blockSuffixes] using hmem
      rw [ih (by simp) (fun x hx => hstart x (by simp [hx])) hocc2]
      simp

theorem mem_dropWhile_self (p : Char → Bool) (c : Char) :
    ∀ l : List Char, c ∈ l → p c = false → c ∈ l.dropWhile p := by
  intro l
  induction l with
  | nil => intro h _; simp at h
  | cons a t ih =>
    intro hc hp
    by_cases ha : p a = true
    · rw [List.dropWhile_cons]
      simp only [ha, if_true]
      rcases List.mem_cons.1 hc with hca | hct
      · rw [hca] at hp; rw [hp] at ha; cases ha
      · exact ih hct hp
    · rw [List.dropWhile_cons]
      simp only [Bool.not_eq_true] at ha
      simp only [ha, Bool.false_eq_true, if_false]
      exact hc

theorem jsTrim_ne_nil (l : List Char) (c : Char) (hc : c ∈ l)
    (hw : isJsWs c = false) : jsTrim l ≠ [] := by
  unfold jsTrim
  intro hnil
  have h1 : c ∈ l.dropWhile isJsWs := mem_dropWhile_self _ c l hc hw
  have h2 : c ∈ (l.dropWhile isJsWs).reverse := List.mem_reverse.mpr h1
  have h3 : c ∈ (l.dropWhile isJsWs).reverse.dropWhile isJsWs :=
    mem_dropWhile_self _ c _ h2 hw
  have h4 : c ∈ ((l.dropWhile isJsWs).reverse.dropWhile isJsWs).reverse :=
    List.mem_reverse.mpr h3
  rw [hnil] at h4
  simp at h4

theorem filter_none_of (p : List Char → Bool) :
    ∀ l : List (List Char), (∀ a ∈ l, p a = false) → l.filter p = [] := by
  intro l
  induction l with
  | nil => intro _; rfl
  | cons a t ih =>
    intro h
    rw [List.filter_cons]
    simp only [h a (List.mem_cons_self a t), Bool.false_eq_true, if_false]
    exact ih (fun x hx => h x (List.mem_cons_of_mem a hx))

theorem filter_all_of (p : List Char → Bool) :
    ∀ l : List (List Char), (∀ a ∈ l, p a = true) → l.filter p = l := by
  intro l
  induction l with
  | nil => intro _; rfl
  | cons a t ih =>
    intro h
    rw [List.filter_cons]
    simp only [h a (List.mem_cons_self a t), if_true]
    rw [ih (fun x hx => h x (List.mem_cons_of_mem a hx))]

/-- C4: `splitRoutes` applied to the empty string, or to any string with no
occurrence of the label token, returns the empty sequence; applied to a
concatenation of well-formed candidate blocks — blocks that each begin with
the label token, the token occurring only at block starts — it returns
exactly those blocks, the token kept at the start of each piece. -/
theorem c4_splitRoutes_splitter :
    splitRoutes [] = []
  ∧ (∀ s, listContains s timeToken = false → splitRoutes s = [])
  ∧ (∀ bs : List (List Char), bs ≠ [] →
      (∀ b ∈ bs, startsWithL timeToken b = true) →
      (∀ i, i < (catList bs).length →
        startsWithL timeToken ((catList bs).drop i) = true →
        (catList bs).drop i ∈ blockSuffixes bs) →
      splitRoutes (catList bs) = bs) := by
  refine ⟨by decide, ?_, ?_⟩
  · intro s h
    unfold splitRoutes splitLookahead
    apply filter_none_of
    intro r hr
    obtain ⟨a, b, hab⟩ := splitLookaheadGo_piece timeToken s [] r hr
    have hab2 : s = a ++ r ++ b := by simpa using hab
    cases hc : listContains r timeToken with
    | false => simp [hc]
    | true =>
      exfalso
      obtain ⟨x, y, hxy⟩ := (listContains_iff r timeToken).1 hc
      have : s = (a ++ x) ++ timeToken ++ (y ++ b) := by
        rw [hab2, hxy]; simp [List.append_assoc]
      have := (listContains_iff s timeToken).2 ⟨a ++ x, y ++ b, this⟩
      rw [h] at this; cases this
  · intro bs hne hstart hocc
    have hocc2 : ∀ v w, catList bs = v ++ w → startsWithL timeToken w = true →
        w ∈ blockSuffixes bs := by
      intro v w hvw hsw
      by_cases hwnil : w = []
      · rw [hwnil, startsWithL_nil_right timeToken (by decide)] at hsw
        cases hsw
      · have hwlen : 1 ≤ w.length := by
          cases w with
          | nil => exact absurd rfl hwnil
          | cons _ _ => simp
        have hi : v.length < (catList bs).length := by
          have := congrArg List.length hvw
          simp only [List.length_append] at this
          omega
        have hdrop : (catList bs).drop v.length = w := by
          rw [hvw, List.drop_left]
        have := hocc v.length hi (by rw [hdrop]; exact hsw)
        rwa [hdrop] at this
    have hsplit := splitLookahead_concat timeToken (by decide) bs hne hstart hocc2
    unfold splitRoutes splitLookahead
    rw [hsplit]
    apply filter_all_of
    intro b hbmem
    obtain ⟨r, hr⟩ := (startsWithL_iff _ _).1 (hstart b hbmem)
    have hmem : '発' ∈ b := by
      rw [hr]
      exact List.mem_append_left r (by decide)
    have htrim := jsTrim_ne_nil b '発' hmem (by decide)
    have hcont : listContains b timeToken = true :=
      (listContains_iff b timeToken).2 ⟨[], r, by simp [hr]⟩
    cases hjb : jsTrim b with
    | nil => exact absurd hjb htrim
    | cons x xs => simp [hjb, hcont]

/-- C2: for every candidate block string, `getSummary` returns exactly
`time(duration)(transfers)` where each value is the text following the
corresponding full-width-colon label up to the next line break within the
first blank-line-delimited section of the trimmed block, a label that is
not found contributing the empty string; the function is total, and an
input with no labels yields the sentinel `()()`. -/
theorem c2_getSummary_format (block : List Char) :
    (∃ t d r, getSummary block = t ++ ['('] ++ d ++ [')', '('] ++ r ++ [')'] ∧
      FirstOccValue (firstSection block) (timeLabel ++ [fullColon]) t ∧
      FirstOccValue (firstSection block) (durationLabel ++ [fullColon]) d ∧
      FirstOccValue (firstSection block) (transferLabel ++ [fullColon]) r)
  ∧ (NoOccurrence (timeLabel ++ [fullColon]) (firstSection block) →
     NoOccurrence (durationLabel ++ [fullColon]) (firstSection block) →
     NoOccurrence (transferLabel ++ [fullColon]) (firstSection block) →
     getSummary block = emptySummarySentinel) := by
  have hcap : ∀ lab : List Char, NoOccurrence (lab ++ [fullColon]) (firstSection block) →
      extractField (firstSection block) lab = [] := by
    intro lab hno
    rw [extractField_eq_captureFirst]
    unfold captureFirst
    cases hf : findSub (firstSection block) (lab ++ [fullColon]) with
    | none => rfl
    | some i =>
      exfalso
      obtain ⟨a, b, hab, _⟩ := findSub_some _ _ i hf
      exact hno a b hab
  constructor
  · refine ⟨extractField (firstSection block) timeLabel,
      extractField (firstSection block) durationLabel,
      extractField (firstSection block) transferLabel, rfl, ?_, ?_, ?_⟩
    all_goals
      rw [extractField_eq_captureFirst]
      exact captureFirst_firstOccValue _ _
  · intro h1 h2 h3
    unfold getSummary
    rw [hcap timeLabel h1, hcap durationLabel h2, hcap transferLabel h3]
    decide

theorem c2_getSummary_format_witness :
    getSummary ("hello".data) = emptySummarySentinel :=
  (c2_getSummary_format _).2
    (findSub_none _ _ (by decide)) (findSub_none _ _ (by decide))
    (findSub_none _ _ (by decide))

/-- C5: for every input block, the route string returned by `getRoute`
contains no occurrence of the three-character artifact (full-width pipe,
half-width space, full-width space) after the three cleanup passes. -/
theorem c5_route_no_artifact (block : List Char) :
    listContains (getRoute block) sepArtifact = false := by
  cases h : listContains (getRoute block) sepArtifact with
  | false => rfl
  | true =>
    exfalso
    obtain ⟨a, b, hab⟩ := (listContains_iff _ _).1 h
    have hab2 : getRoute block = (a ++ ['｜']) ++ ' ' :: '　' :: b := by
      rw [hab]; simp [sepArtifact, List.append_assoc]
    have htrue : hasAdjWs (getRoute block) = true := by
      rw [hab2]; exact hasAdjWs_of_append _ _ _ _ (by decide) (by decide)
    have hfalse : hasAdjWs (getRoute block) = false := by
      unfold getRoute stripDoubleWsLines
      exact stripDoubleWsLinesGo_noAdj _ _
    rw [hfalse] at htrue; cases htrue

/-- C6: for every label and summary text, `extractField` treats the label
as literal data — the pattern-control characters are escaped before the
pattern is built, and the escaped pattern parses back to the literal label
followed by the full-width colon, so extraction is equivalent to a plain
literal-substring search for label-plus-colon. -/
theorem c6_extractField_literal (summary label : List Char) :
    extractField summary label = captureFirst summary (label ++ [fullColon])
  ∧ parseLiteralPattern (escapeRegExp label ++ [fullColon]) =
      some (label ++ [fullColon]) :=
  ⟨extractField_eq_captureFirst summary label,
   parseLiteralPattern_escapeRegExp label⟩

theorem c4_splitRoutes_splitter_witness :
    splitRoutes ("no label here".data) = []
  ∧ splitRoutes (catList [timeToken ++ ['a'], timeToken ++ ['b']]) =
      [timeToken ++ ['a'], timeToken ++ ['b']] :=
  ⟨c4_splitRoutes_splitter.2.1 _ (by decide),
   c4_splitRoutes_splitter.2.2 [timeToken ++ ['a'], timeToken ++ ['b']]
     (by decide) (by decide) (by decide)⟩

theorem fetchTransitPage_first_request (env : NetEnv) :
    (fetchTransitPage env).2.head? = some JORUDAN_URL := by
  simp only [fetchTransitPage]
  repeat' (first | rfl | split)

theorem transitBranch_statusCode (env : NetEnv) :
    (transitBranch env).1.statusCode = 200 ∨ (transitBranch env).1.statusCode = 500 := by
  unfold transitBranch
  rcases hf : fetchTransitPage env with ⟨res, reqs⟩
  cases res with
  | error er => exact Or.inr rfl
  | ok body =>
    cases hp : processBody body with
    | error er => simp only [hp]; exact Or.inr rfl
    | ok ts => simp only [hp]; exact Or.inl rfl

theorem transitBranch_headers (env : NetEnv) :
    (transitBranch env).1.headers = JSON_HEADERS := by
  unfold transitBranch
  rcases hf : fetchTransitPage env with ⟨res, reqs⟩
  cases res with
  | error er => rfl
  | ok body =>
    cases hp : processBody body with
    | error er => simp only [hp]; rfl
    | ok ts => simp only [hp]; rfl

/-- C1: the anti-SSRF guards.  First part: when the client-redirect path
extracted from the step-1 body starts with a double slash or contains a
scheme separator, the fetch fails before any second request is issued —
the only URL ever requested is the fixed trusted one — and the dispatcher
returns the uniform 500 response.  Second part: when the step-2 response
carries an absolute `Location` header whose origin is not the trusted
origin, the fetch fails before the content request — exactly two URLs,
both built on the trusted origin, have been requested. -/
theorem c1_ssrf_guard (env : NetEnv) :
    (∀ p, extractRedirectUrl env.resp1.body = some p →
      badRedirectPath p = true →
      fetchTransitPage env =
        (Except.error LambdaError.invalidRedirectPath, [JORUDAN_URL])
      ∧ ∀ now e, normalizePath (effectiveRawPath e) ≠ statusPath →
          (handler env now e).1 = errorResponse)
  ∧ (∀ p loc, extractRedirectUrl env.resp1.body = some p →
      badRedirectPath p = false →
      (env.resp2 (joinUrl JORUDAN_BASE_URL p)
        (extractCookies env.resp1.setCookie)).location = some loc →
      startsWithL httpLit loc = true →
      env.originOfUrl loc ≠ some JORUDAN_BASE_URL →
      ∃ er, fetchTransitPage env =
        (Except.error er, [JORUDAN_URL, joinUrl JORUDAN_BASE_URL p])) := by
  constructor
  · intro p hp hbad
    have hfetch : fetchTransitPage env =
        (Except.error LambdaError.invalidRedirectPath, [JORUDAN_URL]) := by
      simp only [fetchTransitPage]
      rw [hp]
      simp [safeJoinUrl, hbad]
    refine ⟨hfetch, ?_⟩
    intro now e hne
    unfold handler
    rw [if_neg hne]
    unfold transitBranch
    rw [hfetch]
  · intro p loc hp hbad hloc hhttp horig
    simp only [fetchTransitPage]
    rw [hp]
    simp only [safeJoinUrl, hbad, Bool.false_eq_true, if_false]
    simp only [resolveFinalUrl, hloc, hhttp, if_true]
    cases ho : env.originOfUrl loc with
    | none => exact ⟨LambdaError.urlConstructor, rfl⟩
    | some o =>
      have hne : ¬ o = JORUDAN_BASE_URL := by
        intro hcontra
        exact horig (by rw [ho, hcontra])
      refine ⟨LambdaError.invalidRedirectOrigin, ?_⟩
      simp only [if_neg hne]

/-- C7: every failure anywhere in the fetch-and-extract pipeline —
including a fetched page with fewer than three horizontal-rule-delimited
segments — produces the same external shape: the constant `errorResponse`
with status 500 and the fixed generic body, independent of which error
occurred. -/
theorem c7_uniform_error_response (env : NetEnv) (now : List Char) (e : Event)
    (hpath : normalizePath (effectiveRawPath e) ≠ statusPath) :
    (∀ er, (fetchTransitPage env).1 = Except.error er →
        handler env now e = (errorResponse, (fetchTransitPage env).2))
  ∧ (∀ body reqs, fetchTransitPage env = (Except.ok body, reqs) →
      (splitHrBlocks body).length < MIN_EXPECTED_BLOCKS →
        handler env now e = (errorResponse, reqs))
  ∧ (∀ body reqs er, fetchTransitPage env = (Except.ok body, reqs) →
      processBody body = Except.error er →
        handler env now e = (errorResponse, reqs))
  ∧ errorResponse.statusCode = 500
  ∧ errorResponse.body = RespBody.genericError := by
  have hh : handler env now e = transitBranch env := by
    unfold handler
    rw [if_neg hpath]
  refine ⟨?_, ?_, ?_, rfl, rfl⟩
  · intro er her
    rcases hf : fetchTransitPage env with ⟨res, reqs⟩
    rw [hf] at her
    simp only at her
    subst her
    rw [hh]
    unfold transitBranch
    rw [hf]
  · intro body reqs hf hlen
    have hpb : processBody body = Except.error LambdaError.insufficientBlocks := by
      simp only [processBody]
      rw [if_pos hlen]
    rw [hh]
    unfold transitBranch
    rw [hf]
    simp only [hpb]
  · intro body reqs er hf hpb
    rw [hh]
    unfold transitBranch
    rw [hf]
    simp only [hpb]

/-- C8: every event whose path normalizes to the health-check route gets
the 200 response with the ok status and the current timestamp, and no
network request is made; the response is produced before and independently
of the fetch pipeline. -/
theorem c8_status_route (env : NetEnv) (now : List Char) (e : Event)
    (h : normalizePath (effectiveRawPath e) = statusPath) :
    handler env now e = (createJsonResponse 200 (RespBody.statusOk now), []) := by
  unfold handler
  rw [if_pos h]

/-- C9: when neither `path` nor `rawPath` is truthy the path defaults to
`/transit`, and every normalized path other than the health-check route is
dispatched to the transit-data route — which always issues the outbound
request to the fixed URL first — and yields status 200 or 500, never a
not-found response. -/
theorem c9_default_transit_dispatch (env : NetEnv) (now : List Char) :
    (∀ e : Event, (e.path = none ∨ e.path = some []) →
        (e.rawPath = none ∨ e.rawPath = some []) →
        effectiveRawPath e = transitDefaultPath)
  ∧ (∀ e : Event, normalizePath (effectiveRawPath e) ≠ statusPath →
        handler env now e = transitBranch env
        ∧ (transitBranch env).2.head? = some JORUDAN_URL
        ∧ ((transitBranch env).1.statusCode = 200 ∨
           (transitBranch env).1.statusCode = 500)) := by
  constructor
  · intro e h1 h2
    rcases h1 with h1 | h1 <;> rcases h2 with h2 | h2 <;>
      simp [effectiveRawPath, orElseStr, h1, h2]
  · intro e hne
    have hh : handler env now e = transitBranch env := by
      unfold handler
      rw [if_neg hne]
    have hreq : (transitBranch env).2 = (fetchTransitPage env).2 := by
      unfold transitBranch
      rcases hf : fetchTransitPage env with ⟨res, reqs⟩
      cases res with
      | error er => rfl
      | ok body =>
        cases hp : processBody body with
        | error er => simp only [hp]
        | ok ts => simp only [hp]
    refine ⟨hh, ?_, transitBranch_statusCode env⟩
    rw [hreq]
    exact fetchTransitPage_first_request env

/-- C10: for every event whose path fields are strings or absent the
handler always resolves to a response whose status code is 200 or 500 and
whose headers are the fixed JSON headers, which contain the
`Content-Type: application/json` pair. -/
theorem c10_total_response_shape (env : NetEnv) (now : List Char) (e : Event) :
    ((handler env now e).1.statusCode = 200 ∨ (handler env now e).1.statusCode = 500)
  ∧ (handler env now e).1.headers = JSON_HEADERS
  ∧ (contentTypeKey, appJsonValue) ∈ JSON_HEADERS := by
  refine ⟨?_, ?_, by simp [JSON_HEADERS]⟩
  · unfold handler
    by_cases h : normalizePath (effectiveRawPath e) = statusPath
    · rw [if_pos h]; exact Or.inl rfl
    · rw [if_neg h]; exact transitBranch_statusCode env
  · unfold handler
    by_cases h : normalizePath (effectiveRawPath e) = statusPath
    · rw [if_pos h]; rfl
    · rw [if_neg h]; exact transitBranch_headers env

/-- C3: for every fetched page whose target segment yields the candidate
list `rs`, the transfers the handler returns are the summary/route pairs of
the first `MAX_CANDIDATES` candidates only, filtered by the
malformed-sentinel and blank-route checks in unchanged order — never more
than two entries, three well-formed candidates yielding exactly the first
two — and an empty filtered list makes the pipeline fail and the handler
answer with the uniform 500 response. -/
theorem c3_transfers_cap_and_filter (body : List Char) (rs : List (List Char))
    (h3 : MIN_EXPECTED_BLOCKS ≤ (splitHrBlocks body).length)
    (hrs : splitRoutes ((splitHrBlocks body).getD TARGET_BLOCK_INDEX []) = rs) :
    (∀ out, processBody body = Except.ok out →
        out = candPairs rs ∧ out.length ≤ MAX_CANDIDATES)
  ∧ (rs ≠ [] → candPairs rs ≠ [] → processBody body = Except.ok (candPairs rs))
  ∧ (candPairs rs = [] →
      (∃ er, processBody body = Except.error er) ∧
      (∀ env now e reqs, fetchTransitPage env = (Except.ok body, reqs) →
        normalizePath (effectiveRawPath e) ≠ statusPath →
        (handler env now e).1 = errorResponse))
  ∧ (∀ r1 r2 r3 rest, rs = r1 :: r2 :: r3 :: rest →
      validPair (mkPair r1) = true → validPair (mkPair r2) = true →
      processBody body = Except.ok [mkPair r1, mkPair r2]) := by
  have hnl : ¬ (splitHrBlocks body).length < MIN_EXPECTED_BLOCKS := not_lt.2 h3
  have hpb : processBody body =
      (if rs = [] then Except.error LambdaError.noRoutesFound
       else if candPairs rs = [] then Except.error LambdaError.noValidRoutes
       else Except.ok (candPairs rs)) := by
    simp only [processBody]
    rw [if_neg hnl, hrs]
  have hcap : (candPairs rs).length ≤ MAX_CANDIDATES := by
    unfold candPairs
    calc (((rs.take MAX_CANDIDATES).map mkPair).filter validPair).length
        ≤ ((rs.take MAX_CANDIDATES).map mkPair).length :=
          List.length_filter_le _ _
      _ ≤ MAX_CANDIDATES := by
          simp only [List.length_map, List.length_take]
          exact min_le_left _ _
  refine ⟨?_, ?_, ?_, ?_⟩
  · intro out hout
    rw [hpb] at hout
    by_cases h1 : rs = []
    · rw [if_pos h1] at hout; cases hout
    · rw [if_neg h1] at hout
      by_cases h2 : candPairs rs = []
      · rw [if_pos h2] at hout; cases hout
      · rw [if_neg h2] at hout
        cases hout
        exact ⟨rfl, hcap⟩
  · intro h1 h2
    rw [hpb, if_neg h1, if_neg h2]
  · intro h2
    have herr : ∃ er, processBody body = Except.error er := by
      rw [hpb]
      by_cases h1 : rs = []
      · rw [if_pos h1]; exact ⟨LambdaError.noRoutesFound, rfl⟩
      · rw [if_neg h1, if_pos h2]; exact ⟨LambdaError.noValidRoutes, rfl⟩
    refine ⟨herr, ?_⟩
    intro env now e reqs henv hne
    obtain ⟨er, her⟩ := herr
    unfold handler
    rw [if_neg hne]
    unfold transitBranch
    rw [henv]
    simp only [her]
  · intro r1 r2 r3 rest hrs2 hv1 hv2
    have hc : candPairs rs = [mkPair r1, mkPair r2] := by
      rw [hrs2]
      unfold candPairs
      show ((((r1 :: r2 :: r3 :: rest).take 2).map mkPair).filter validPair) = _
      simp only [List.take_succ_cons, List.take_zero, List.map_cons, List.map_nil,
        List.filter_cons, hv1, hv2, if_true, List.filter_nil]
    have h1 : rs ≠ [] := by rw [hrs2]; simp
    rw [hpb, if_neg h1, if_neg (by rw [hc]; simp), hc]

theorem c1_ssrf_guard_witness :
    (fetchTransitPage envSsrfW =
        (Except.error LambdaError.invalidRedirectPath, [JORUDAN_URL])
      ∧ (handler envSsrfW nowW evDefaultW).1 = errorResponse)
  ∧ ∃ er, fetchTransitPage envOriginW =
      (Except.error er, [JORUDAN_URL, joinUrl JORUDAN_BASE_URL uuidPathW]) := by
  constructor
  · have h := (c1_ssrf_guard envSsrfW).1 ssrfPathW rfl (by decide)
    exact ⟨h.1, h.2 nowW evDefaultW (by decide)⟩
  · exact (c1_ssrf_guard envOriginW).2 uuidPathW evilLocW rfl (by decide) rfl
      (by decide) (by decide)

theorem c3_transfers_cap_and_filter_witness :
    processBody bodyW = Except.ok [mkPair wbA, mkPair wbB] :=
  (c3_transfers_cap_and_filter bodyW [wbA, wbB, wbC] (by decide)
    (by decide)).2.2.2 wbA wbB wbC [] rfl (by decide) (by decide)

theorem c7_uniform_error_response_witness :
    handler envSsrfW nowW evDefaultW =
      (errorResponse, (fetchTransitPage envSsrfW).2) :=
  (c7_uniform_error_response envSsrfW nowW evDefaultW (by decide)).1
    LambdaError.invalidRedirectPath (by rfl)

theorem c8_status_route_witness :
    handler envSsrfW nowW evStatusW =
      (createJsonResponse 200 (RespBody.statusOk nowW), []) :=
  c8_status_route envSsrfW nowW evStatusW (by decide)

theorem c9_default_transit_dispatch_witness :
    effectiveRawPath evDefaultW = transitDefaultPath
  ∧ handler envSsrfW nowW evFooW = transitBranch envSsrfW :=
  ⟨(c9_default_transit_dispatch envSsrfW nowW).1 evDefaultW (Or.inl rfl) (Or.inl rfl),
   ((c9_default_transit_dispatch envSsrfW nowW).2 evFooW (by decide)).1⟩
